import Mathlib

/-!
# ViewSync: verification of the session server and the client sync logic

This file shallowly embeds the two cores of the ViewSync repository:

* the socket.io session server (`src/unnamed/part_001`, `server.js`): an
  in-memory registry `rooms : Map<roomId, Room>` with handlers for
  `create-room`, `join-room`, `play`, `pause`, `seek`, `change-video`,
  `send-message` and `disconnect`;
* the client playback aggregator and local relay (`src/client/src/App.tsx`):
  `playAll`, `broadcastSyncEvent`, the storage / BroadcastChannel listeners,
  and `onPlayerStateChange`.

JavaScript `Map`s preserve insertion order; they are embedded as
association lists (`List (Nat × _)`) with `set` / `get` / `delete` operations
that mirror the JS semantics (update-in-place keeps the position, a fresh key
is appended, iteration is list order).  Socket ids, user ids and room ids
are `Nat`; media positions are `Int` (the server only stores and forwards
them, no arithmetic is performed on them).
-/

namespace ViewSync

/-! ## Insertion-ordered maps (JavaScript `Map` semantics) -/

/-- `Map.prototype.get` (also plain-object indexing): first, and under
key-uniqueness the only, binding. -/
def mapGet {α β : Type} [DecidableEq α] (m : List (α × β)) (k : α) : Option β :=
  match m with
  | [] => none
  | (k', v) :: rest => if k' = k then some v else mapGet rest k

/-- `Map.prototype.has`. -/
def mapHas {α β : Type} [DecidableEq α] (m : List (α × β)) (k : α) : Bool :=
  (mapGet m k).isSome

/-- `Map.prototype.set`: replaces in place if the key is present (keeping its
position in iteration order), otherwise appends at the end. -/
def mapSet {α β : Type} [DecidableEq α] (m : List (α × β)) (k : α) (v : β) : List (α × β) :=
  match m with
  | [] => [(k, v)]
  | (k', v') :: rest => if k' = k then (k, v) :: rest else (k', v') :: mapSet rest k v

/-- `Map.prototype.delete`. -/
def mapDelete {α β : Type} [DecidableEq α] (m : List (α × β)) (k : α) : List (α × β) :=
  m.filter (fun p => p.1 ≠ k)

/-- `Map.prototype.size` / `Object.keys(...).length`. -/
def mapSize {α β : Type} (m : List (α × β)) : Nat := m.length

/-! ## Server data model (`server.js`) -/

/-- User structure of `server.js`: `{id, name, isHost, socketId}`.
The `socketId` is the key under which the user is stored in `room.users`. -/
structure User where
  id : Nat
  name : String
  isHost : Bool
  socketId : Nat
  deriving DecidableEq, Repr

/-- Room structure of `server.js`:
`{id, name, videoUrl, isPlaying, currentTime, users, createdAt}`.
`users` is a `Map<socketId, userInfo>` in join order. -/
structure Room where
  id : Nat
  name : String
  videoUrl : String
  isPlaying : Bool
  currentTime : Int
  users : List (Nat × User)
  createdAt : Nat
  deriving DecidableEq, Repr

/-- The registry `const rooms = new Map()`, keyed by room id. -/
abbrev Rooms := List (Nat × Room)

/-- Destination of a socket.io emission. -/
inductive Dest where
  /-- `socket.emit(...)`: delivered to the sending connection only. -/
  | toSocket (sid : Nat)
  /-- `socket.to(roomId).emit(...)`: delivered to every member of the
  socket.io room except the sender's connection. -/
  | toRoomExcept (roomId : Nat) (sender : Nat)
  /-- `io.to(roomId).emit(...)`: delivered to every member of the
  socket.io room, the sender included when it is a member. -/
  | toRoom (roomId : Nat)
  deriving DecidableEq, Repr

/-- Read-only room snapshot sent in `room-joined` / `room-created`. -/
structure RoomSnapshot where
  id : Nat
  name : String
  videoUrl : String
  isPlaying : Bool
  currentTime : Int
  deriving DecidableEq, Repr

def Room.snapshot (room : Room) : RoomSnapshot :=
  ⟨room.id, room.name, room.videoUrl, room.isPlaying, room.currentTime⟩

/-- Payload of an emitted event. -/
inductive Payload where
  | errorMsg (message : String)
  | roomAndUser (room : RoomSnapshot) (user : User) (users : List User)
  | userAndList (user : User) (users : List User)
  | timeOnly (currentTime : Int)
  | urlOnly (videoUrl : String)
  | chat (id : Nat) (userName : String) (message : String)
  deriving DecidableEq, Repr

/-- One `emit` performed by a handler: event name, destination, payload. -/
structure Emission where
  dest : Dest
  event : String
  payload : Payload
  deriving DecidableEq, Repr

/-- The socket ids of a room's participants, in join order
(`Array.from(room.users.keys())`). -/
def memberIds (rooms : Rooms) (roomId : Nat) : List Nat :=
  match mapGet rooms roomId with
  | some room => room.users.map Prod.fst
  | none => []

/-- The connections a destination delivers to, given the registry state at
emission time.  Socket.io room membership coincides with `room.users` keys:
`join-room`/`create-room` perform `socket.join` exactly when they add the
user to `room.users`. -/
def receiversOf (rooms : Rooms) : Dest → List Nat
  | .toSocket sid => [sid]
  | .toRoomExcept roomId sender => (memberIds rooms roomId).filter (fun m => m ≠ sender)
  | .toRoom roomId => memberIds rooms roomId

/-- `receives rooms em s`: connection `s` is among the receivers of `em`. -/
def receives (rooms : Rooms) (em : Emission) (s : Nat) : Prop :=
  s ∈ receiversOf rooms em.dest

instance (rooms : Rooms) (em : Emission) (s : Nat) : Decidable (receives rooms em s) := by
  unfold receives; infer_instance

/-! ## Server handlers

Each handler takes the registry plus the message data and returns the new
registry together with the list of emissions it performed, in order. -/

/-- `socket.on('join-room')`: `freshUid` models the `uuidv4()` user id. -/
def handleJoinRoom (rooms : Rooms) (sid : Nat) (roomId : Nat) (userName : String)
    (freshUid : Nat) : Rooms × List Emission :=
  match mapGet rooms roomId with
  | none => (rooms, [⟨.toSocket sid, "error", .errorMsg "Room not found"⟩])
  | some room =>
    let isHost := mapSize room.users = 0
    let user : User := ⟨freshUid, userName, isHost, sid⟩
    let users' := mapSet room.users sid user
    let room' := { room with users := users' }
    let rooms' := mapSet rooms roomId room'
    (rooms',
      [⟨.toSocket sid, "room-joined",
          .roomAndUser room'.snapshot user (users'.map Prod.snd)⟩,
       ⟨.toRoomExcept roomId sid, "user-joined",
          .userAndList user (users'.map Prod.snd)⟩])

/-- `socket.on('create-room')`: `freshRoomId` and `freshUid` model the two
`uuidv4()` calls; `now` models `new Date()`. -/
def handleCreateRoom (rooms : Rooms) (sid : Nat) (roomName userName videoUrl : String)
    (freshRoomId freshUid now : Nat) : Rooms × List Emission :=
  let user : User := ⟨freshUid, userName, true, sid⟩
  let room : Room :=
    { id := freshRoomId, name := roomName, videoUrl := videoUrl,
      isPlaying := false, currentTime := 0,
      users := mapSet [] sid user, createdAt := now }
  let rooms' := mapSet rooms freshRoomId room
  (rooms',
    [⟨.toSocket sid, "room-created",
        .roomAndUser room.snapshot user (room.users.map Prod.snd)⟩])

/-- `socket.on('play')`. -/
def handlePlay (rooms : Rooms) (sid : Nat) (roomId : Nat) (currentTime : Int) :
    Rooms × List Emission :=
  match mapGet rooms roomId with
  | none => (rooms, [])
  | some room =>
    let room' := { room with isPlaying := true, currentTime := currentTime }
    (mapSet rooms roomId room',
      [⟨.toRoomExcept roomId sid, "play", .timeOnly currentTime⟩])

/-- `socket.on('pause')`. -/
def handlePause (rooms : Rooms) (sid : Nat) (roomId : Nat) (currentTime : Int) :
    Rooms × List Emission :=
  match mapGet rooms roomId with
  | none => (rooms, [])
  | some room =>
    let room' := { room with isPlaying := false, currentTime := currentTime }
    (mapSet rooms roomId room',
      [⟨.toRoomExcept roomId sid, "pause", .timeOnly currentTime⟩])

/-- `socket.on('seek')`. -/
def handleSeek (rooms : Rooms) (sid : Nat) (roomId : Nat) (currentTime : Int) :
    Rooms × List Emission :=
  match mapGet rooms roomId with
  | none => (rooms, [])
  | some room =>
    let room' := { room with currentTime := currentTime }
    (mapSet rooms roomId room',
      [⟨.toRoomExcept roomId sid, "seek", .timeOnly currentTime⟩])

/-- `socket.on('change-video')`: note the emission goes through
`io.to(roomId)`, not `socket.to(roomId)`. -/
def handleChangeVideo (rooms : Rooms) (sid : Nat) (roomId : Nat) (videoUrl : String) :
    Rooms × List Emission :=
  match mapGet rooms roomId with
  | none => (rooms, [])
  | some room =>
    let room' := { room with videoUrl := videoUrl, isPlaying := false, currentTime := 0 }
    (mapSet rooms roomId room',
      [⟨.toRoom roomId, "video-changed", .urlOnly videoUrl⟩])

/-- `newHost = room.users.values().next().value; newHost.isHost = true`:
marks the first (earliest-joined) remaining user as host. -/
def promoteFirst (users : List (Nat × User)) : List (Nat × User) :=
  match users with
  | [] => []
  | (k, u) :: rest => (k, { u with isHost := true }) :: rest

/-- The user record `room.users.get(socket.id)` read before removal (the
default is irrelevant: the loop only reads it when the key is present). -/
def leavingUser (users : List (Nat × User)) (sid : Nat) : User :=
  (mapGet users sid).getD ⟨0, "", false, 0⟩

/-- The `users` map after `room.users.delete(socket.id)` followed by the
conditional host promotion (`if (user.isHost && room.users.size > 0)`). -/
def usersAfterLeave (users : List (Nat × User)) (sid : Nat) : List (Nat × User) :=
  let users₁ := mapDelete users sid
  if (leavingUser users sid).isHost ∧ 0 < mapSize users₁ then promoteFirst users₁
  else users₁

/-- Body of the `for (const [roomId, room] of rooms.entries())` loop of
`socket.on('disconnect')`: finds the first room containing `sid`, removes
the user, promotes a new host if the host left and users remain, deletes
the room if it became empty, otherwise notifies the remainder; `break`s
after the first hit, so later rooms are untouched. -/
def disconnectLoop (rooms : Rooms) (sid : Nat) : Rooms × List Emission :=
  match rooms with
  | [] => ([], [])
  | (roomId, room) :: rest =>
    if mapHas room.users sid then
      let users₂ := usersAfterLeave room.users sid
      if mapSize users₂ = 0 then
        (rest, [])
      else
        ((roomId, { room with users := users₂ }) :: rest,
          [⟨.toRoomExcept roomId sid, "user-left",
              .userAndList (leavingUser room.users sid) (users₂.map Prod.snd)⟩])
    else
      let (rest', ems) := disconnectLoop rest sid
      ((roomId, room) :: rest', ems)

/-- `socket.on('disconnect')`. -/
def handleDisconnect (rooms : Rooms) (sid : Nat) : Rooms × List Emission :=
  disconnectLoop rooms sid

/-- `socket.on('send-message')`: no registry mutation, broadcast to the whole
room (sender included). -/
def handleSendMessage (rooms : Rooms) (roomId : Nat) (message userName : String)
    (freshMsgId : Nat) : Rooms × List Emission :=
  (rooms, [⟨.toRoom roomId, "new-message", .chat freshMsgId userName message⟩])

/-! ## Command steps and reachability -/

/-- One client→server message, with the fresh identifiers the handler draws. -/
inductive Cmd where
  | create (sid : Nat) (roomName userName videoUrl : String)
      (freshRoomId freshUid now : Nat)
  | join (sid roomId : Nat) (userName : String) (freshUid : Nat)
  | play (sid roomId : Nat) (currentTime : Int)
  | pause (sid roomId : Nat) (currentTime : Int)
  | seek (sid roomId : Nat) (currentTime : Int)
  | changeVideo (sid roomId : Nat) (videoUrl : String)
  | sendMessage (roomId : Nat) (message userName : String) (freshMsgId : Nat)
  | disconnect (sid : Nat)
  deriving DecidableEq, Repr

/-- Registry after one handler run. -/
def stepRegistry (rooms : Rooms) : Cmd → Rooms
  | .create sid rn un vu frid fuid now =>
      (handleCreateRoom rooms sid rn un vu frid fuid now).1
  | .join sid rid un fuid => (handleJoinRoom rooms sid rid un fuid).1
  | .play sid rid t => (handlePlay rooms sid rid t).1
  | .pause sid rid t => (handlePause rooms sid rid t).1
  | .seek sid rid t => (handleSeek rooms sid rid t).1
  | .changeVideo sid rid u => (handleChangeVideo rooms sid rid u).1
  | .sendMessage rid m un fm => (handleSendMessage rooms rid m un fm).1
  | .disconnect sid => (handleDisconnect rooms sid).1

/-- Registry states reachable from the empty registry by any message
sequence the wire protocol admits. -/
inductive ReachableJS : Rooms → Prop where
  | init : ReachableJS []
  | step {rooms : Rooms} (c : Cmd) : ReachableJS rooms → ReachableJS (stepRegistry rooms c)

/-- `NoRejoin rooms c`: the command is not a `join-room` by a connection that
is already a participant of the target room. -/
def NoRejoin (rooms : Rooms) : Cmd → Prop
  | .join sid rid _ _ =>
      ∀ room, mapGet rooms rid = some room → mapHas room.users sid = false
  | _ => True

/-- Registry states reachable when no connection ever re-joins a room it is
already in (every other message, duplicate creates included, stays free). -/
inductive ReachableNR : Rooms → Prop where
  | init : ReachableNR []
  | step {rooms : Rooms} (c : Cmd) : ReachableNR rooms → NoRejoin rooms c →
      ReachableNR (stepRegistry rooms c)

/-- Number of participants flagged as host. -/
def countHosts (users : List (Nat × User)) : Nat :=
  (users.filter (fun p => p.2.isHost)).length

/-- Per-room shape invariant: distinct participant keys, at least one
participant, exactly one host. -/
def RoomWF (room : Room) : Prop :=
  (room.users.map Prod.fst).Nodup ∧ room.users ≠ [] ∧ countHosts room.users = 1

/-- Registry invariant: every stored room is well-formed. -/
def RegistryWF (rooms : Rooms) : Prop :=
  ∀ p ∈ rooms, RoomWF p.2

/-- Full registry invariant: distinct room keys, plus every stored room
well-formed. -/
def RegistryInv (rooms : Rooms) : Prop :=
  (rooms.map Prod.fst).Nodup ∧ RegistryWF rooms

/-! ## Client data model (`App.tsx`)

YouTube iframe API player state codes. -/

def YTUnstarted : Int := -1
def YTEnded : Int := 0
def YTPlaying : Int := 1
def YTPaused : Int := 2
def YTBuffering : Int := 3
def YTCued : Int := 5

/-- Observable slice of a YouTube player handle as `playAll` probes it:
whether `player.playVideo` is a function, and what `getPlayerState()`
returns (`-1` when `getPlayerState` is missing, per the `? :` fallback). -/
structure Player where
  hasPlayVideo : Bool
  state : Int
  deriving DecidableEq, Repr

/-- The `App` component state that `playAll` reads: the YouTube API flag
(`window.YT && window.YT.Player`), the `videos` list (ids in add order),
the `readyPlayers` set (iterated in insertion order), and
`playersRef.current` (`none` models a null/undefined stored handle). -/
structure AggregatorState where
  ytReady : Bool
  videos : List String
  readyPlayers : List String
  players : List (String × Option Player)
  deriving DecidableEq, Repr

/-- `Array.from(readyPlayers).map(videoId => [videoId, playersRef.current[videoId]])
.filter(([videoId, player]) => player != null)`. -/
def playersFromReady (st : AggregatorState) : List (String × Player) :=
  st.readyPlayers.filterMap (fun vid =>
    match mapGet st.players vid with
    | some (some pl) => some (vid, pl)
    | _ => none)

/-- `Object.entries(playersRef.current).filter(([videoId, player]) => player != null)`. -/
def registeredPlayers (st : AggregatorState) : List (String × Player) :=
  st.players.filterMap (fun p => p.2.map (fun pl => (p.1, pl)))

/-- The last-resort filter of `playAll`: entries whose player is non-null and
has a callable `playVideo`. -/
def functionalPlayers (st : AggregatorState) : List (String × Player) :=
  (registeredPlayers st).filter (fun p => p.2.hasPlayVideo)

/-- What `playAll` decides before the staggered dispatch loop: either it
`alert`s and returns without touching any player, or it proceeds to
dispatch to a final list of player entries. -/
inductive PlayAllOutcome where
  | fail (message : String)
  | dispatch (targets : List (String × Player))
  deriving DecidableEq, Repr

/-- `playAll` outcome discriminator. -/
def PlayAllOutcome.isFail : PlayAllOutcome → Bool
  | .fail _ => true
  | .dispatch _ => false

/-- `playAll` of `App.tsx` (lines 206-284), up to the point where the
dispatch loop over `readyPlayersArray` starts.  Every early `return`
becomes `fail` with the `alert` text; otherwise the outcome is `dispatch`
of the final `readyPlayersArray`. -/
def playAll (st : AggregatorState) : PlayAllOutcome :=
  if ¬ st.ytReady then
    .fail "YouTube API is not ready yet. Please wait a moment and try again."
  else if st.videos = [] then
    .fail "No videos loaded. Please add some videos first."
  else if st.readyPlayers.length = 0 ∧ st.players.length = 0 then
    .fail "Videos are still loading. Please wait for the videos to load completely."
  else
    let arr₁ := if 0 < st.readyPlayers.length then playersFromReady st
                else registeredPlayers st
    let arr₂ := if arr₁ = [] then functionalPlayers st else arr₁
    if arr₂ = [] then
      .fail "No functional video players found. Please refresh the page and try again."
    else
      .dispatch arr₂

/-- Inner body of the dispatch loop: a `playVideo` attempt increments
`playedCount` when the player has a callable `playVideo` and its state is
`-1`/`UNSTARTED`, `PAUSED`, `CUED` (play issued) or already `PLAYING`;
`BUFFERING` only schedules a retry without counting, and any other state
is skipped. -/
def playAttemptCounts (pl : Player) : Bool :=
  pl.hasPlayVideo &&
    (pl.state = YTUnstarted || pl.state = YTPaused || pl.state = YTCued ||
     pl.state = YTPlaying)

/-- The `playedCount` reported after the dispatch loop. -/
def playedCount (targets : List (String × Player)) : Nat :=
  (targets.filter (fun p => playAttemptCounts p.2)).length

/-! ## Client local relay (`App.tsx` lines 454-515) -/

/-- `window.name || 'main'`: the empty window name is falsy. -/
def selfWindowId (windowName : String) : String :=
  if windowName = "" then "main" else windowName

/-- Payload of a relay event (`data` field). -/
inductive SyncData where
  | empty
  | time (t : Int)
  | video (videoId : String)
  deriving DecidableEq, Repr

/-- The relay message shape `{type, data, timestamp, windowId}`. -/
structure SyncEvent where
  type : String
  data : SyncData
  timestamp : Nat
  windowId : String
  deriving DecidableEq, Repr

/-- One transport-level action `broadcastSyncEvent` performs. -/
inductive RelayAction where
  /-- `new BroadcastChannel('viewsync').postMessage(event)`. -/
  | postPrimary (e : SyncEvent)
  /-- `localStorage.setItem('viewsync_event', JSON.stringify(event))`. -/
  | writeFallback (e : SyncEvent)
  deriving DecidableEq, Repr

/-- `broadcastSyncEvent` (lines 455-476): builds the event, posts it on the
BroadcastChannel when `window.BroadcastChannel` exists, and then writes the
`viewsync_event` localStorage slot. -/
def broadcastSyncEvent (hasBroadcastChannel : Bool) (eventType : String)
    (data : SyncData) (now : Nat) (windowName : String) : List RelayAction :=
  let event : SyncEvent := ⟨eventType, data, now, selfWindowId windowName⟩
  (if hasBroadcastChannel then [.postPrimary event] else []) ++
    [.writeFallback event]

/-- `handleStorageChange` (lines 480-491): returns the event passed on to
`handleSyncEvent`, or `none` when the listener ignores the storage event.
`newValue` is the parsed new slot value; a missing value or a JSON parse
failure (caught) both deliver nothing and are modelled as `none`. -/
def handleStorageChange (windowName : String) (key : String)
    (newValue : Option SyncEvent) : Option SyncEvent :=
  if key = "viewsync_event" then
    match newValue with
    | some ev => if ev.windowId ≠ selfWindowId windowName then some ev else none
    | none => none
  else
    none

/-- `handleBroadcastMessage` (lines 493-497): returns the event passed on to
`handleSyncEvent`, or `none`.  The guard is
`event.data && event.data.type && event.data.windowId !== (window.name || 'main')`;
a falsy (empty) `type` string also blocks delivery. -/
def handleBroadcastMessage (windowName : String) (data : Option SyncEvent) :
    Option SyncEvent :=
  match data with
  | some ev =>
      if ev.type ≠ "" ∧ ev.windowId ≠ selfWindowId windowName then some ev else none
  | none => none

/-! ## Client state-change callback (`App.tsx` lines 552-580) -/

/-- Effects `onPlayerStateChange` can perform. -/
inductive ClientEffect where
  /-- `setIsPlaying(b)`. -/
  | setIsPlaying (b : Bool)
  /-- `broadcastSyncEvent(eventType, { videoId })`. -/
  | broadcast (eventType : String) (videoId : String)
  /-- loop restart: `player.seekTo(0); player.playVideo()`. -/
  | restartVideo (videoId : String)
  deriving DecidableEq, Repr

/-- `onPlayerStateChange`: `isFirstVideo` is
`videos.length > 0 && videos[0].id === videoId`; a `PLAYING`/`PAUSED`
transition always updates the local playing flag and broadcasts only for
the first (master) video; `ENDED` with the loop flag restarts the surface
locally, never broadcasting. -/
def onPlayerStateChange (videos : List String) (loopEnabled : Bool)
    (players : List (String × Option Player)) (videoId : String) (data : Int) :
    List ClientEffect :=
  let isFirstVideo := 0 < videos.length ∧ videos.head? = some videoId
  if data = YTPlaying then
    .setIsPlaying true :: (if isFirstVideo then [.broadcast "play" videoId] else [])
  else if data = YTPaused then
    .setIsPlaying false :: (if isFirstVideo then [.broadcast "pause" videoId] else [])
  else if data = YTEnded ∧ loopEnabled = true then
    match mapGet players videoId with
    | some (some _) => [.restartVideo videoId]
    | _ => []
  else
    []

/-! ## Helper lemmas about the embedded `Map` operations -/

section MapLemmas

variable {α β : Type} [DecidableEq α]

theorem mapGet_mem {m : List (α × β)} {k : α} {v : β} (h : mapGet m k = some v) :
    (k, v) ∈ m := by
  induction m with
  | nil => simp [mapGet] at h
  | cons p rest ih =>
    obtain ⟨k', v'⟩ := p
    by_cases hk : k' = k
    · subst hk
      simp [mapGet] at h
      simp [h]
    · simp [mapGet, hk] at h
      exact List.mem_cons_of_mem _ (ih h)

theorem mapGet_eq_none_iff {m : List (α × β)} {k : α} :
    mapGet m k = none ↔ k ∉ m.map Prod.fst := by
  induction m with
  | nil => simp [mapGet]
  | cons p rest ih =>
    obtain ⟨k', v'⟩ := p
    by_cases hk : k' = k
    · subst hk; simp [mapGet]
    · simp [mapGet, hk, ih, Ne.symm hk]

theorem mapGet_mapSet_self {m : List (α × β)} {k : α} {v : β} :
    mapGet (mapSet m k v) k = some v := by
  induction m with
  | nil => simp [mapSet, mapGet]
  | cons p rest ih =>
    obtain ⟨k', v'⟩ := p
    by_cases hk : k' = k
    · subst hk; simp [mapSet, mapGet]
    · simp [mapSet, mapGet, hk, ih]

theorem mapGet_mapSet_ne {m : List (α × β)} {k k' : α} {v : β} (h : k' ≠ k) :
    mapGet (mapSet m k v) k' = mapGet m k' := by
  induction m with
  | nil => simp [mapSet, mapGet, Ne.symm h]
  | cons p rest ih =>
    obtain ⟨k₀, v₀⟩ := p
    by_cases hk : k₀ = k
    · subst hk; simp [mapSet, mapGet, Ne.symm h]
    · simp only [mapSet, if_neg hk, mapGet]
      by_cases hk' : k₀ = k'
      · simp [hk']
      · simp [hk', ih]

theorem mapSet_of_not_has {m : List (α × β)} {k : α} {v : β}
    (h : mapHas m k = false) : mapSet m k v = m ++ [(k, v)] := by
  induction m with
  | nil => simp [mapSet]
  | cons p rest ih =>
    obtain ⟨k', v'⟩ := p
    by_cases hk : k' = k
    · subst hk; simp [mapHas, mapGet] at h
    · simp [mapHas, mapGet, hk] at h
      simp [mapSet, hk, ih, mapHas, h]

theorem mem_mapSet {m : List (α × β)} {k : α} {v : β} {p : α × β}
    (h : p ∈ mapSet m k v) : p ∈ m ∨ p = (k, v) := by
  induction m with
  | nil => simp [mapSet] at h; simp [h]
  | cons q rest ih =>
    obtain ⟨k', v'⟩ := q
    by_cases hk : k' = k
    · subst hk
      simp [mapSet] at h
      rcases h with h | h
      · right; simp [h]
      · left; exact List.mem_cons_of_mem _ h
    · simp [mapSet, hk] at h
      rcases h with h | h
      · left; simp [h]
      · rcases ih h with h' | h'
        · left; exact List.mem_cons_of_mem _ h'
        · right; exact h'

theorem keys_mapSet (m : List (α × β)) (k : α) (v : β) :
    (mapSet m k v).map Prod.fst =
      if mapHas m k then m.map Prod.fst else m.map Prod.fst ++ [k] := by
  induction m with
  | nil => simp [mapSet, mapHas, mapGet]
  | cons p rest ih =>
    obtain ⟨k', v'⟩ := p
    by_cases hk : k' = k
    · subst hk; simp [mapSet, mapHas, mapGet]
    · simp [mapSet, hk, mapHas, mapGet, ih]
      by_cases hmem : (mapGet rest k).isSome <;> simp [hmem]

theorem keys_mapSet_nodup {m : List (α × β)} {k : α} {v : β}
    (h : (m.map Prod.fst).Nodup) : ((mapSet m k v).map Prod.fst).Nodup := by
  rw [keys_mapSet]
  by_cases hmem : mapHas m k
  · simpa [hmem] using h
  · have hk : k ∉ m.map Prod.fst := by
      rw [← mapGet_eq_none_iff]
      simp [mapHas] at hmem
      exact Option.not_isSome_iff_eq_none.mp (by simpa using hmem)
    simp [hmem, List.nodup_append, h, hk]

theorem mapDelete_sublist {m : List (α × β)} {k : α} :
    (mapDelete m k).Sublist m :=
  List.filter_sublist m

theorem keys_mapDelete_nodup {m : List (α × β)} {k : α}
    (h : (m.map Prod.fst).Nodup) : ((mapDelete m k).map Prod.fst).Nodup :=
  ((mapDelete_sublist (k := k)).map Prod.fst).nodup h

theorem mapDelete_eq_self {m : List (α × β)} {k : α}
    (h : k ∉ m.map Prod.fst) : mapDelete m k = m := by
  induction m with
  | nil => rfl
  | cons p rest ih =>
    simp at h
    simp [mapDelete] at ih ⊢
    exact ⟨fun he => h.1 he.symm, ih h.2⟩

end MapLemmas

/-! ## Helper lemmas about hosts -/

theorem countHosts_nil : countHosts [] = 0 := rfl

theorem countHosts_cons (k : Nat) (u : User) (rest : List (Nat × User)) :
    countHosts ((k, u) :: rest) =
      (if u.isHost then 1 else 0) + countHosts rest := by
  by_cases h : u.isHost <;> simp [countHosts, List.filter, h, Nat.add_comm]

theorem countHosts_append (l₁ l₂ : List (Nat × User)) :
    countHosts (l₁ ++ l₂) = countHosts l₁ + countHosts l₂ := by
  simp [countHosts, List.filter_append]

theorem countHosts_promoteFirst {l : List (Nat × User)} (hne : l ≠ [])
    (h : countHosts l = 0) : countHosts (promoteFirst l) = 1 := by
  match l with
  | (k, u) :: rest =>
    rw [countHosts_cons] at h
    simp [promoteFirst, countHosts_cons]
    omega

theorem promoteFirst_keys (l : List (Nat × User)) :
    (promoteFirst l).map Prod.fst = l.map Prod.fst := by
  match l with
  | [] => rfl
  | (k, u) :: rest => simp [promoteFirst]

theorem promoteFirst_length (l : List (Nat × User)) :
    (promoteFirst l).length = l.length := by
  match l with
  | [] => rfl
  | (k, u) :: rest => simp [promoteFirst]

theorem countHosts_mapDelete {m : List (Nat × User)} {sid : Nat} {u : User}
    (hnd : (m.map Prod.fst).Nodup) (hget : mapGet m sid = some u) :
    countHosts (mapDelete m sid) + (if u.isHost then 1 else 0) = countHosts m := by
  induction m with
  | nil => simp [mapGet] at hget
  | cons p rest ih =>
    obtain ⟨k, v⟩ := p
    rw [List.map_cons, List.nodup_cons] at hnd
    by_cases hk : k = sid
    · subst hk
      simp [mapGet] at hget
      have heq : mapDelete ((k, v) :: rest) k = mapDelete rest k := by
        simp [mapDelete]
      rw [heq, mapDelete_eq_self hnd.1, countHosts_cons, ← hget]
      omega
    · simp [mapGet, hk] at hget
      have hrec := ih hnd.2 hget
      have heq : mapDelete ((k, v) :: rest) sid = (k, v) :: mapDelete rest sid := by
        simp [mapDelete, hk]
      rw [heq, countHosts_cons, countHosts_cons]
      omega

theorem countHosts_ne_zero_of_eq_one {l : List (Nat × User)}
    (h : countHosts l = 1) : l ≠ [] := by
  intro he
  subst he
  simp [countHosts] at h

/-! ## The registry invariant and its preservation -/

theorem usersAfterLeave_spec {users : List (Nat × User)} {sid : Nat}
    (hnd : (users.map Prod.fst).Nodup) (hone : countHosts users = 1) :
    ((usersAfterLeave users sid).map Prod.fst).Nodup ∧
    (usersAfterLeave users sid ≠ [] → countHosts (usersAfterLeave users sid) = 1) := by
  have hndel : ((mapDelete users sid).map Prod.fst).Nodup := keys_mapDelete_nodup hnd
  by_cases hhas : mapHas users sid
  · obtain ⟨u, hget⟩ : ∃ u, mapGet users sid = some u := by
      simp [mapHas] at hhas
      exact Option.isSome_iff_exists.mp hhas
    have hleave : leavingUser users sid = u := by simp [leavingUser, hget]
    have hcount := countHosts_mapDelete hnd hget
    by_cases hhost : u.isHost
    · have hzero : countHosts (mapDelete users sid) = 0 := by
        rw [hone] at hcount; simp [hhost] at hcount; exact hcount
      by_cases hrem : 0 < mapSize (mapDelete users sid)
      · have heq : usersAfterLeave users sid = promoteFirst (mapDelete users sid) := by
          simp [usersAfterLeave, hleave, hhost, hrem]
        have hne : mapDelete users sid ≠ [] := by
          intro he
          rw [he] at hrem
          simp [mapSize] at hrem
        rw [heq]
        refine ⟨by rw [promoteFirst_keys]; exact hndel, fun _ => ?_⟩
        exact countHosts_promoteFirst hne hzero
      · have heq : usersAfterLeave users sid = mapDelete users sid := by
          simp [usersAfterLeave, hleave, hrem]
        have hnil : mapDelete users sid = [] := by
          simpa [mapSize] using hrem
        rw [heq, hnil]
        exact ⟨List.nodup_nil, fun h => absurd rfl h⟩
    · have hcnt : countHosts (mapDelete users sid) = 1 := by
        rw [hone] at hcount; simp [hhost] at hcount; exact hcount
      have heq : usersAfterLeave users sid = mapDelete users sid := by
        simp [usersAfterLeave, hleave, hhost]
      rw [heq]
      exact ⟨hndel, fun _ => hcnt⟩
  · have hgetnone : mapGet users sid = none := by
      simp [mapHas] at hhas
      exact Option.not_isSome_iff_eq_none.mp (by simpa using hhas)
    have heq : mapDelete users sid = users := by
      apply mapDelete_eq_self
      rw [← mapGet_eq_none_iff]
      exact hgetnone
    have hlu : leavingUser users sid = ⟨0, "", false, 0⟩ := by
      simp [leavingUser, hgetnone]
    have h2 : usersAfterLeave users sid = users := by
      simp [usersAfterLeave, hlu, heq]
    rw [h2]
    exact ⟨hnd, fun _ => hone⟩

theorem disconnectLoop_WF {rooms : Rooms} (sid : Nat) (h : RegistryWF rooms) :
    RegistryWF (disconnectLoop rooms sid).1 := by
  induction rooms with
  | nil =>
    intro p hp
    simp [disconnectLoop] at hp
  | cons q rest ih =>
    obtain ⟨rid, room⟩ := q
    have hroom : RoomWF room := h (rid, room) (List.mem_cons_self _ _)
    have hrest : RegistryWF rest := fun p hp => h p (List.mem_cons_of_mem _ hp)
    by_cases hhas : mapHas room.users sid
    · by_cases hz : mapSize (usersAfterLeave room.users sid) = 0
      · have heq : (disconnectLoop ((rid, room) :: rest) sid).1 = rest := by
          simp [disconnectLoop, hhas, hz]
        rw [heq]
        exact hrest
      · have heq : (disconnectLoop ((rid, room) :: rest) sid).1 =
            (rid, { room with users := usersAfterLeave room.users sid }) :: rest := by
          simp [disconnectLoop, hhas, hz]
        rw [heq]
        intro p hp
        rcases List.mem_cons.mp hp with hp' | hp'
        · subst hp'
          obtain ⟨hnd, _, hone⟩ := hroom
          obtain ⟨hnd', hone'⟩ := usersAfterLeave_spec hnd hone
          have hne : usersAfterLeave room.users sid ≠ [] := by
            intro he
            rw [he] at hz
            simp [mapSize] at hz
          exact ⟨hnd', hne, hone' hne⟩
        · exact hrest p hp'
    · have heq : (disconnectLoop ((rid, room) :: rest) sid).1 =
          (rid, room) :: (disconnectLoop rest sid).1 := by
        simp [disconnectLoop, hhas]
      rw [heq]
      intro p hp
      rcases List.mem_cons.mp hp with hp' | hp'
      · subst hp'; exact hroom
      · exact ih hrest p hp'

theorem disconnectLoop_keys_sublist (rooms : Rooms) (sid : Nat) :
    ((disconnectLoop rooms sid).1.map Prod.fst).Sublist (rooms.map Prod.fst) := by
  induction rooms with
  | nil => simp [disconnectLoop]
  | cons q rest ih =>
    obtain ⟨rid, room⟩ := q
    by_cases hhas : mapHas room.users sid
    · by_cases hz : mapSize (usersAfterLeave room.users sid) = 0
      · have heq : (disconnectLoop ((rid, room) :: rest) sid).1 = rest := by
          simp [disconnectLoop, hhas, hz]
        rw [heq]
        exact (List.Sublist.refl _).cons rid
      · have heq : (disconnectLoop ((rid, room) :: rest) sid).1 =
            (rid, { room with users := usersAfterLeave room.users sid }) :: rest := by
          simp [disconnectLoop, hhas, hz]
        rw [heq]
        simp
    · have heq : (disconnectLoop ((rid, room) :: rest) sid).1 =
          (rid, room) :: (disconnectLoop rest sid).1 := by
        simp [disconnectLoop, hhas]
      rw [heq]
      simpa using ih.cons₂ rid

theorem roomWF_users_eq {room room' : Room} (h : room'.users = room.users)
    (hwf : RoomWF room) : RoomWF room' := by
  unfold RoomWF at *
  rw [h]
  exact hwf

theorem registryInv_mapSet {rooms : Rooms} {rid : Nat} {room : Room}
    (h : RegistryInv rooms) (hroom : RoomWF room) :
    RegistryInv (mapSet rooms rid room) := by
  obtain ⟨hnd, hwf⟩ := h
  refine ⟨keys_mapSet_nodup hnd, fun p hp => ?_⟩
  rcases mem_mapSet hp with hp' | hp'
  · exact hwf p hp'
  · subst hp'
    exact hroom

theorem registryInv_step {rooms : Rooms} {c : Cmd} (h : RegistryInv rooms)
    (hok : NoRejoin rooms c) : RegistryInv (stepRegistry rooms c) := by
  obtain ⟨hnd, hwf⟩ := h
  cases c with
  | create sid rn un vu frid fuid now =>
    refine registryInv_mapSet ⟨hnd, hwf⟩ ?_
    refine ⟨?_, ?_, ?_⟩ <;> simp [mapSet, countHosts]
  | join sid rid un fuid =>
    cases hm : mapGet rooms rid with
    | none =>
      have heq : stepRegistry rooms (.join sid rid un fuid) = rooms := by
        simp [stepRegistry, handleJoinRoom, hm]
      rw [heq]
      exact ⟨hnd, hwf⟩
    | some room =>
      have hroom : RoomWF room := hwf (rid, room) (mapGet_mem hm)
      have hhas : mapHas room.users sid = false := hok room hm
      have happ : mapSet room.users sid
          ⟨fuid, un, decide (mapSize room.users = 0), sid⟩ =
          room.users ++ [(sid, ⟨fuid, un, decide (mapSize room.users = 0), sid⟩)] :=
        mapSet_of_not_has hhas
      have heq : stepRegistry rooms (.join sid rid un fuid) =
          mapSet rooms rid
            { room with users := (mapSet room.users sid
                (⟨fuid, un, decide (mapSize room.users = 0), sid⟩ : User)) } := by
        simp [stepRegistry, handleJoinRoom, hm]
      rw [heq]
      refine registryInv_mapSet ⟨hnd, hwf⟩ ?_
      obtain ⟨hnd', hne', hone'⟩ := hroom
      have hsid : sid ∉ room.users.map Prod.fst := by
        rw [← mapGet_eq_none_iff]
        simp [mapHas] at hhas
        exact hhas
      have hhostFalse : decide (mapSize room.users = 0) = false := by
        simp [mapSize]
        exact hne'
      refine ⟨?_, ?_, ?_⟩
      · show ((mapSet room.users sid _).map Prod.fst).Nodup
        exact keys_mapSet_nodup hnd'
      · show mapSet room.users sid _ ≠ []
        rw [happ]
        simp
      · show countHosts (mapSet room.users sid _) = 1
        rw [happ, countHosts_append, countHosts_cons, hhostFalse]
        simp [countHosts_nil, hone']
  | play sid rid t =>
    cases hm : mapGet rooms rid with
    | none =>
      have heq : stepRegistry rooms (.play sid rid t) = rooms := by
        simp [stepRegistry, handlePlay, hm]
      rw [heq]; exact ⟨hnd, hwf⟩
    | some room =>
      have heq : stepRegistry rooms (.play sid rid t) =
          mapSet rooms rid { room with isPlaying := true, currentTime := t } := by
        simp [stepRegistry, handlePlay, hm]
      rw [heq]
      exact registryInv_mapSet ⟨hnd, hwf⟩
        (roomWF_users_eq rfl (hwf (rid, room) (mapGet_mem hm)))
  | pause sid rid t =>
    cases hm : mapGet rooms rid with
    | none =>
      have heq : stepRegistry rooms (.pause sid rid t) = rooms := by
        simp [stepRegistry, handlePause, hm]
      rw [heq]; exact ⟨hnd, hwf⟩
    | some room =>
      have heq : stepRegistry rooms (.pause sid rid t) =
          mapSet rooms rid { room with isPlaying := false, currentTime := t } := by
        simp [stepRegistry, handlePause, hm]
      rw [heq]
      exact registryInv_mapSet ⟨hnd, hwf⟩
        (roomWF_users_eq rfl (hwf (rid, room) (mapGet_mem hm)))
  | seek sid rid t =>
    cases hm : mapGet rooms rid with
    | none =>
      have heq : stepRegistry rooms (.seek sid rid t) = rooms := by
        simp [stepRegistry, handleSeek, hm]
      rw [heq]; exact ⟨hnd, hwf⟩
    | some room =>
      have heq : stepRegistry rooms (.seek sid rid t) =
          mapSet rooms rid { room with currentTime := t } := by
        simp [stepRegistry, handleSeek, hm]
      rw [heq]
      exact registryInv_mapSet ⟨hnd, hwf⟩
        (roomWF_users_eq rfl (hwf (rid, room) (mapGet_mem hm)))
  | changeVideo sid rid u =>
    cases hm : mapGet rooms rid with
    | none =>
      have heq : stepRegistry rooms (.changeVideo sid rid u) = rooms := by
        simp [stepRegistry, handleChangeVideo, hm]
      rw [heq]; exact ⟨hnd, hwf⟩
    | some room =>
      have heq : stepRegistry rooms (.changeVideo sid rid u) =
          mapSet rooms rid
            { room with videoUrl := u, isPlaying := false, currentTime := 0 } := by
        simp [stepRegistry, handleChangeVideo, hm]
      rw [heq]
      exact registryInv_mapSet ⟨hnd, hwf⟩
        (roomWF_users_eq rfl (hwf (rid, room) (mapGet_mem hm)))
  | sendMessage rid m un fm =>
    exact ⟨hnd, hwf⟩
  | disconnect sid =>
    refine ⟨?_, ?_⟩
    · exact (disconnectLoop_keys_sublist rooms sid).nodup hnd
    · exact disconnectLoop_WF sid hwf

theorem registryInv_reachableNR {rooms : Rooms} (h : ReachableNR rooms) :
    RegistryInv rooms := by
  induction h with
  | init => exact ⟨List.nodup_nil, fun p hp => absurd hp (List.not_mem_nil p)⟩
  | step c _ hok ih => exact registryInv_step ih hok

/-! ## Behaviour of the disconnect loop at the hit room -/

theorem disconnectLoop_hit {rooms : Rooms} {sid rid : Nat} {room : Room} {u : User}
    (hnd : (rooms.map Prod.fst).Nodup)
    (hfind : rooms.find? (fun p => mapHas p.2.users sid) = some (rid, room))
    (hget : mapGet room.users sid = some u) (hhost : u.isHost = true)
    (hrem : mapDelete room.users sid ≠ []) :
    mapGet (disconnectLoop rooms sid).1 rid =
      some { room with users := promoteFirst (mapDelete room.users sid) } := by
  induction rooms with
  | nil => simp at hfind
  | cons q rest ih =>
    obtain ⟨k, r⟩ := q
    rw [List.map_cons, List.nodup_cons] at hnd
    by_cases hhas : mapHas r.users sid
    · rw [List.find?_cons_of_pos _ (by simpa using hhas)] at hfind
      obtain ⟨hk, hr⟩ : k = rid ∧ r = room := by
        have := Option.some.inj hfind
        exact ⟨congrArg Prod.fst this, congrArg Prod.snd this⟩
      subst hk; subst hr
      have hlu : leavingUser r.users sid = u := by simp [leavingUser, hget]
      have hpos : 0 < mapSize (mapDelete r.users sid) := by
        cases hd : mapDelete r.users sid with
        | nil => exact absurd hd hrem
        | cons a tl => simp [hd, mapSize]
      have hafter : usersAfterLeave r.users sid =
          promoteFirst (mapDelete r.users sid) := by
        simp [usersAfterLeave, hlu, hhost, hpos]
      have hsz : ¬ mapSize (promoteFirst (mapDelete r.users sid)) = 0 := by
        simp only [mapSize, promoteFirst_length] at hpos ⊢
        omega
      simp [disconnectLoop, hhas, hafter, hsz, mapGet]
    · rw [List.find?_cons_of_neg _ (by simpa using hhas)] at hfind
      have hmem : (rid, room) ∈ rest := List.mem_of_find?_eq_some hfind
      have hkne : ¬ k = rid := by
        intro hk
        subst hk
        exact hnd.1 (List.mem_map.mpr ⟨(k, room), hmem, rfl⟩)
      have heq : (disconnectLoop ((k, r) :: rest) sid).1 =
          (k, r) :: (disconnectLoop rest sid).1 := by
        simp [disconnectLoop, hhas]
      rw [heq]
      simp only [mapGet, if_neg hkne]
      exact ih hnd.2 hfind

theorem disconnectLoop_deletes_sole {rooms : Rooms} {sid rid : Nat} {room : Room}
    {u : User} (hnd : (rooms.map Prod.fst).Nodup)
    (hfind : rooms.find? (fun p => mapHas p.2.users sid) = some (rid, room))
    (hsole : room.users = [(sid, u)]) :
    mapGet (disconnectLoop rooms sid).1 rid = none := by
  induction rooms with
  | nil => simp at hfind
  | cons q rest ih =>
    obtain ⟨k, r⟩ := q
    rw [List.map_cons, List.nodup_cons] at hnd
    by_cases hhas : mapHas r.users sid
    · rw [List.find?_cons_of_pos _ (by simpa using hhas)] at hfind
      obtain ⟨hk, hr⟩ : k = rid ∧ r = room := by
        have := Option.some.inj hfind
        exact ⟨congrArg Prod.fst this, congrArg Prod.snd this⟩
      subst hk; subst hr
      have hdel : mapDelete r.users sid = [] := by
        simp [hsole, mapDelete]
      have hafter : usersAfterLeave r.users sid = [] := by
        simp [usersAfterLeave, hdel, mapSize]
      have hsz : mapSize (usersAfterLeave r.users sid) = 0 := by
        rw [hafter]; rfl
      have heq : (disconnectLoop ((k, r) :: rest) sid).1 = rest := by
        simp [disconnectLoop, hhas, hsz]
      rw [heq, mapGet_eq_none_iff]
      exact hnd.1
    · rw [List.find?_cons_of_neg _ (by simpa using hhas)] at hfind
      have hmem : (rid, room) ∈ rest := List.mem_of_find?_eq_some hfind
      have hkne : ¬ k = rid := by
        intro hk
        subst hk
        exact hnd.1 (List.mem_map.mpr ⟨(k, room), hmem, rfl⟩)
      have heq : (disconnectLoop ((k, r) :: rest) sid).1 =
          (k, r) :: (disconnectLoop rest sid).1 := by
        simp [disconnectLoop, hhas]
      rw [heq]
      simp only [mapGet, if_neg hkne]
      exact ih hnd.2 hfind

/-! ## Remaining helper lemmas for the claim theorems -/

theorem handleJoinRoom_none {rooms : Rooms} {sid roomId : Nat} {userName : String}
    {freshUid : Nat} (h : mapGet rooms roomId = none) :
    handleJoinRoom rooms sid roomId userName freshUid =
      (rooms, [⟨.toSocket sid, "error", .errorMsg "Room not found"⟩]) := by
  simp [handleJoinRoom, h]

theorem receives_toRoomExcept_iff {rooms : Rooms} {rid s m : Nat} {event : String}
    {pl : Payload} :
    receives rooms ⟨.toRoomExcept rid s, event, pl⟩ m ↔
      m ∈ memberIds rooms rid ∧ m ≠ s := by
  simp [receives, receiversOf, List.mem_filter]

theorem receives_toRoom_iff {rooms : Rooms} {rid m : Nat} {event : String}
    {pl : Payload} :
    receives rooms ⟨.toRoom rid, event, pl⟩ m ↔ m ∈ memberIds rooms rid :=
  Iff.rfl

theorem memberIds_mapSet_self {rooms : Rooms} {rid : Nat} {room : Room} :
    memberIds (mapSet rooms rid room) rid = room.users.map Prod.fst := by
  simp [memberIds, mapGet_mapSet_self]

theorem registeredPlayers_nil_get {st : AggregatorState}
    (h : registeredPlayers st = []) (vid : String) (pl : Player) :
    mapGet st.players vid ≠ some (some pl) := by
  intro hget
  have hmem := mapGet_mem hget
  have hin : (vid, pl) ∈ registeredPlayers st := by
    simp only [registeredPlayers, List.mem_filterMap]
    exact ⟨(vid, some pl), hmem, rfl⟩
  rw [h] at hin
  exact absurd hin (List.not_mem_nil _)

theorem playersFromReady_nil {st : AggregatorState}
    (h : registeredPlayers st = []) : playersFromReady st = [] := by
  unfold playersFromReady
  rw [List.filterMap_eq_nil_iff]
  intro vid _
  cases hget : mapGet st.players vid with
  | none => simp
  | some o =>
    cases o with
    | none => simp
    | some pl => exact absurd hget (registeredPlayers_nil_get h vid pl)

/-! ## Claim theorems -/

/-- **C5.** `join-room` with a `roomId` that names no existing room returns a
single `error` "Room not found" (the `NotFound` surface of the protocol) to
the caller's own connection only, and leaves the registry completely
unchanged: no room is created or mutated, no participant is added, and the
sole emission reaches nobody but the caller. -/
theorem joinRoom_nonexistent_notFound (rooms : Rooms) (sid roomId : Nat)
    (userName : String) (freshUid : Nat) (h : mapGet rooms roomId = none) :
    (handleJoinRoom rooms sid roomId userName freshUid).1 = rooms ∧
    (handleJoinRoom rooms sid roomId userName freshUid).2 =
      [⟨.toSocket sid, "error", .errorMsg "Room not found"⟩] ∧
    ∀ em ∈ (handleJoinRoom rooms sid roomId userName freshUid).2,
      receiversOf rooms em.dest = [sid] := by
  rw [handleJoinRoom_none h]
  refine ⟨rfl, rfl, ?_⟩
  intro em hem
  rw [List.mem_singleton] at hem
  subst hem
  rfl

/-- Witness for `joinRoom_nonexistent_notFound` at a concrete registry. -/
theorem joinRoom_nonexistent_notFound_witness :
    (handleJoinRoom [] 7 3 "bob" 11).1 = [] ∧
    (handleJoinRoom [] 7 3 "bob" 11).2 =
      [⟨.toSocket 7, "error", .errorMsg "Room not found"⟩] ∧
    ∀ em ∈ (handleJoinRoom [] 7 3 "bob" 11).2,
      receiversOf [] em.dest = [7] :=
  joinRoom_nonexistent_notFound [] 7 3 "bob" 11 rfl

/-- **C9.** Every playback command (`play`, `pause`, `seek`, `change-video`)
whose `roomId` names no existing room is a silent no-op: the registry is
returned unchanged and the handler emits nothing at all — no multicast to
any participant and no error back to the caller. -/
theorem playback_commands_silent_on_missing_room (rooms : Rooms)
    (sid roomId : Nat) (t : Int) (url : String)
    (h : mapGet rooms roomId = none) :
    handlePlay rooms sid roomId t = (rooms, []) ∧
    handlePause rooms sid roomId t = (rooms, []) ∧
    handleSeek rooms sid roomId t = (rooms, []) ∧
    handleChangeVideo rooms sid roomId url = (rooms, []) := by
  refine ⟨?_, ?_, ?_, ?_⟩ <;>
    simp [handlePlay, handlePause, handleSeek, handleChangeVideo, h]

/-- Witness for `playback_commands_silent_on_missing_room` at a concrete
registry that has a room, but not the addressed one. -/
theorem playback_commands_silent_on_missing_room_witness :
    handlePlay [(5, ⟨5, "r", "v", false, 0, [(1, ⟨9, "a", true, 1⟩)], 0⟩)] 1 6 4 =
      ([(5, ⟨5, "r", "v", false, 0, [(1, ⟨9, "a", true, 1⟩)], 0⟩)], []) ∧
    handlePause [(5, ⟨5, "r", "v", false, 0, [(1, ⟨9, "a", true, 1⟩)], 0⟩)] 1 6 4 =
      ([(5, ⟨5, "r", "v", false, 0, [(1, ⟨9, "a", true, 1⟩)], 0⟩)], []) ∧
    handleSeek [(5, ⟨5, "r", "v", false, 0, [(1, ⟨9, "a", true, 1⟩)], 0⟩)] 1 6 4 =
      ([(5, ⟨5, "r", "v", false, 0, [(1, ⟨9, "a", true, 1⟩)], 0⟩)], []) ∧
    handleChangeVideo [(5, ⟨5, "r", "v", false, 0, [(1, ⟨9, "a", true, 1⟩)], 0⟩)] 1 6 "w" =
      ([(5, ⟨5, "r", "v", false, 0, [(1, ⟨9, "a", true, 1⟩)], 0⟩)], []) :=
  playback_commands_silent_on_missing_room
    [(5, ⟨5, "r", "v", false, 0, [(1, ⟨9, "a", true, 1⟩)], 0⟩)] 1 6 4 "w" rfl

/-- **C10.** A `seek` command on an existing room updates only that room's
`currentTime`: the playing flag, video url, participant map, name, id and
creation time of the room keep their values, and every other room of the
registry is untouched. -/
theorem seek_updates_only_position (rooms : Rooms) (sid roomId : Nat) (t : Int)
    (room : Room) (h : mapGet rooms roomId = some room) :
    (∃ room', mapGet (handleSeek rooms sid roomId t).1 roomId = some room' ∧
      room'.currentTime = t ∧ room'.isPlaying = room.isPlaying ∧
      room'.videoUrl = room.videoUrl ∧ room'.users = room.users ∧
      room'.name = room.name ∧ room'.id = room.id ∧
      room'.createdAt = room.createdAt) ∧
    ∀ rid, rid ≠ roomId →
      mapGet (handleSeek rooms sid roomId t).1 rid = mapGet rooms rid := by
  have heq : (handleSeek rooms sid roomId t).1 =
      mapSet rooms roomId { room with currentTime := t } := by
    simp [handleSeek, h]
  rw [heq]
  exact ⟨⟨{ room with currentTime := t },
      mapGet_mapSet_self, rfl, rfl, rfl, rfl, rfl, rfl, rfl⟩,
    fun rid hne => mapGet_mapSet_ne hne⟩

/-- Witness for `seek_updates_only_position` on a two-room registry. -/
theorem seek_updates_only_position_witness :
    (∃ room', mapGet (handleSeek
        [(5, ⟨5, "r", "v", true, 3, [(1, ⟨9, "a", true, 1⟩)], 2⟩),
         (6, ⟨6, "s", "w", false, 0, [(2, ⟨8, "b", true, 2⟩)], 4⟩)] 1 5 44).1 5 =
          some room' ∧
      room'.currentTime = 44 ∧
      room'.isPlaying = (⟨5, "r", "v", true, 3, [(1, ⟨9, "a", true, 1⟩)], 2⟩ : Room).isPlaying ∧
      room'.videoUrl = (⟨5, "r", "v", true, 3, [(1, ⟨9, "a", true, 1⟩)], 2⟩ : Room).videoUrl ∧
      room'.users = (⟨5, "r", "v", true, 3, [(1, ⟨9, "a", true, 1⟩)], 2⟩ : Room).users ∧
      room'.name = (⟨5, "r", "v", true, 3, [(1, ⟨9, "a", true, 1⟩)], 2⟩ : Room).name ∧
      room'.id = (⟨5, "r", "v", true, 3, [(1, ⟨9, "a", true, 1⟩)], 2⟩ : Room).id ∧
      room'.createdAt = (⟨5, "r", "v", true, 3, [(1, ⟨9, "a", true, 1⟩)], 2⟩ : Room).createdAt) ∧
    ∀ rid, rid ≠ 5 →
      mapGet (handleSeek
        [(5, ⟨5, "r", "v", true, 3, [(1, ⟨9, "a", true, 1⟩)], 2⟩),
         (6, ⟨6, "s", "w", false, 0, [(2, ⟨8, "b", true, 2⟩)], 4⟩)] 1 5 44).1 rid =
      mapGet
        [(5, ⟨5, "r", "v", true, 3, [(1, ⟨9, "a", true, 1⟩)], 2⟩),
         (6, ⟨6, "s", "w", false, 0, [(2, ⟨8, "b", true, 2⟩)], 4⟩)] rid :=
  seek_updates_only_position
    [(5, ⟨5, "r", "v", true, 3, [(1, ⟨9, "a", true, 1⟩)], 2⟩),
     (6, ⟨6, "s", "w", false, 0, [(2, ⟨8, "b", true, 2⟩)], 4⟩)] 1 5 44
    ⟨5, "r", "v", true, 3, [(1, ⟨9, "a", true, 1⟩)], 2⟩ rfl

/-- **C8.** When the last participant of a room disconnects (the participant
map empties), the room is deleted from the registry in that same disconnect
step — no `user-left` notification is sent — and a subsequent `join-room`
addressed to the deleted room id fails with the "Room not found" error and
leaves the post-disconnect registry unchanged.  The room hypothesis pins
the first registry entry containing the connection, which is the one the
loop processes before `break`ing. -/
theorem empty_room_deleted_on_disconnect (rooms : Rooms) (sid roomId : Nat)
    (room : Room) (u : User) (sid' : Nat) (userName : String) (freshUid : Nat)
    (hnd : (rooms.map Prod.fst).Nodup)
    (hfind : rooms.find? (fun p => mapHas p.2.users sid) = some (roomId, room))
    (hsole : room.users = [(sid, u)]) :
    mapGet (handleDisconnect rooms sid).1 roomId = none ∧
    handleJoinRoom (handleDisconnect rooms sid).1 sid' roomId userName freshUid =
      ((handleDisconnect rooms sid).1,
        [⟨.toSocket sid', "error", .errorMsg "Room not found"⟩]) := by
  have hgone : mapGet (disconnectLoop rooms sid).1 roomId = none :=
    disconnectLoop_deletes_sole hnd hfind hsole
  exact ⟨hgone, handleJoinRoom_none hgone⟩

/-- Witness for `empty_room_deleted_on_disconnect`: a two-room registry in
which connection 2 is the sole participant of room 6. -/
theorem empty_room_deleted_on_disconnect_witness :
    mapGet (handleDisconnect
      [(5, ⟨5, "r", "v", false, 0, [(1, ⟨9, "a", true, 1⟩)], 0⟩),
       (6, ⟨6, "s", "w", false, 0, [(2, ⟨8, "b", true, 2⟩)], 4⟩)] 2).1 6 = none ∧
    handleJoinRoom (handleDisconnect
      [(5, ⟨5, "r", "v", false, 0, [(1, ⟨9, "a", true, 1⟩)], 0⟩),
       (6, ⟨6, "s", "w", false, 0, [(2, ⟨8, "b", true, 2⟩)], 4⟩)] 2).1 3 6 "carol" 12 =
      ((handleDisconnect
        [(5, ⟨5, "r", "v", false, 0, [(1, ⟨9, "a", true, 1⟩)], 0⟩),
         (6, ⟨6, "s", "w", false, 0, [(2, ⟨8, "b", true, 2⟩)], 4⟩)] 2).1,
        [⟨.toSocket 3, "error", .errorMsg "Room not found"⟩]) :=
  empty_room_deleted_on_disconnect
    [(5, ⟨5, "r", "v", false, 0, [(1, ⟨9, "a", true, 1⟩)], 0⟩),
     (6, ⟨6, "s", "w", false, 0, [(2, ⟨8, "b", true, 2⟩)], 4⟩)] 2 6
    ⟨6, "s", "w", false, 0, [(2, ⟨8, "b", true, 2⟩)], 4⟩ ⟨8, "b", true, 2⟩
    3 "carol" 12 (by decide) (by decide) rfl

/-- **C6.** Neither local-relay listener ever hands `handleSyncEvent` an
event whose `windowId` (origin identity) equals the listener's own window
identity (`window.name || 'main'`): both the storage-fallback handler and
the BroadcastChannel handler drop such events. -/
theorem relay_never_delivers_own_events (windowName key : String)
    (ev : SyncEvent) (h : ev.windowId = selfWindowId windowName) :
    handleStorageChange windowName key (some ev) = none ∧
    handleBroadcastMessage windowName (some ev) = none := by
  constructor
  · unfold handleStorageChange
    by_cases hk : key = "viewsync_event" <;> simp [hk, h]
  · unfold handleBroadcastMessage
    simp [h]

/-- Witness for `relay_never_delivers_own_events`: the main window receives
its own event back on either transport and ignores it. -/
theorem relay_never_delivers_own_events_witness :
    handleStorageChange "" "viewsync_event" (some ⟨"play", .empty, 0, "main"⟩) = none ∧
    handleBroadcastMessage "" (some ⟨"play", .empty, 0, "main"⟩) = none :=
  relay_never_delivers_own_events "" "viewsync_event" ⟨"play", .empty, 0, "main"⟩ rfl

/-- **C7.** For a locally detected `PLAYING` or `PAUSED` transition of a
surface, `onPlayerStateChange` emits a relay broadcast exactly when the
surface is the first-registered (master) clip (`videos[0].id === videoId`),
and in every case it updates the local playing flag
(`setIsPlaying(true/false)`), so non-master transitions are applied locally
without any broadcast. -/
theorem stateChange_broadcast_iff_master (videos : List String)
    (loopEnabled : Bool) (players : List (String × Option Player))
    (videoId : String) (data : Int) (h : data = YTPlaying ∨ data = YTPaused) :
    ((∃ e v, ClientEffect.broadcast e v ∈
        onPlayerStateChange videos loopEnabled players videoId data) ↔
      videos.head? = some videoId) ∧
    ClientEffect.setIsPlaying (decide (data = YTPlaying)) ∈
      onPlayerStateChange videos loopEnabled players videoId data := by
  have hlen : ∀ (hh : videos.head? = some videoId), 0 < videos.length := by
    intro hh
    cases videos with
    | nil => simp at hh
    | cons a tl => simp
  rcases h with rfl | rfl
  · refine ⟨?_, ?_⟩
    · by_cases hf : videos.head? = some videoId
      · simp [onPlayerStateChange, hf, hlen hf]
      · have hno : ¬ (0 < videos.length ∧ videos.head? = some videoId) := by
          intro hc; exact hf hc.2
        simp [onPlayerStateChange, hno, hf]
    · simp [onPlayerStateChange]
  · refine ⟨?_, ?_⟩
    · by_cases hf : videos.head? = some videoId
      · simp [onPlayerStateChange, YTPaused, YTPlaying, hf, hlen hf]
      · have hno : ¬ (0 < videos.length ∧ videos.head? = some videoId) := by
          intro hc; exact hf hc.2
        simp [onPlayerStateChange, YTPaused, YTPlaying, hno, hf]
    · simp [onPlayerStateChange, YTPaused, YTPlaying]

/-- Witness for `stateChange_broadcast_iff_master`: a `PLAYING` transition of
the master surface of a two-surface registry. -/
theorem stateChange_broadcast_iff_master_witness :
    ((∃ e v, ClientEffect.broadcast e v ∈
        onPlayerStateChange ["a", "b"] false [] "a" 1) ↔
      (["a", "b"] : List String).head? = some "a") ∧
    ClientEffect.setIsPlaying (decide ((1 : Int) = YTPlaying)) ∈
      onPlayerStateChange ["a", "b"] false [] "a" 1 :=
  stateChange_broadcast_iff_master ["a", "b"] false [] "a" 1 (Or.inl rfl)

/-- **C3 counterexample.** With the primary transport (BroadcastChannel)
available, `broadcastSyncEvent` still writes the shared persistent fallback
slot: the action list contains both the primary post *and* the fallback
write, refuting "publish uses the primary exclusively and does not also
write the fallback slot". -/
theorem publish_writes_fallback_with_primary :
    broadcastSyncEvent true "play" .empty 0 "" =
      [.postPrimary ⟨"play", .empty, 0, "main"⟩,
       .writeFallback ⟨"play", .empty, 0, "main"⟩] := by
  rfl

/-- **C3 (amended).** `broadcastSyncEvent` always writes the event into the
single shared persistent fallback slot — for every publish, regardless of
transport availability — and additionally posts it on the primary multicast
transport exactly when that transport is available. -/
theorem publish_primary_and_fallback (hasBC : Bool) (eventType : String)
    (data : SyncData) (now : Nat) (windowName : String) :
    RelayAction.writeFallback ⟨eventType, data, now, selfWindowId windowName⟩ ∈
      broadcastSyncEvent hasBC eventType data now windowName ∧
    (RelayAction.postPrimary ⟨eventType, data, now, selfWindowId windowName⟩ ∈
        broadcastSyncEvent hasBC eventType data now windowName ↔
      hasBC = true) := by
  unfold broadcastSyncEvent
  cases hasBC <;> simp

/-- **C1 counterexample.** The `change-video` handler emits through
`io.to(roomId)`, not `socket.to(roomId)`: in a room whose participants are
connections 1 and 2, the `video-changed` event produced by sender 1 is
delivered back to connection 1 itself, refuting "the resulting event … is
never delivered back to the sender's own connection" for `ChangeMedia`. -/
theorem changeVideo_echoes_sender :
    (handleChangeVideo
        [(10, ⟨10, "r", "v", false, 0,
          [(1, ⟨100, "alice", true, 1⟩), (2, ⟨101, "bob", false, 2⟩)], 0⟩)]
        1 10 "w").2 =
      [⟨.toRoom 10, "video-changed", .urlOnly "w"⟩] ∧
    receives
      (handleChangeVideo
        [(10, ⟨10, "r", "v", false, 0,
          [(1, ⟨100, "alice", true, 1⟩), (2, ⟨101, "bob", false, 2⟩)], 0⟩)]
        1 10 "w").1
      ⟨.toRoom 10, "video-changed", .urlOnly "w"⟩ 1 := by
  refine ⟨?_, ?_⟩
  · rfl
  · decide

/-- **C1 (amended).** For a `play`, `pause` or `seek` command applied to an
existing room, the single resulting event is delivered to every participant
of that room other than the sender and never back to the sender's own
connection; the `change-video` event, however, is delivered to every
participant of the room, the sender included whenever the sender is a
participant. -/
theorem playback_multicast_excludes_sender (rooms : Rooms) (sid roomId : Nat)
    (t : Int) (url : String) (room : Room)
    (h : mapGet rooms roomId = some room) :
    (∀ result ∈ [handlePlay rooms sid roomId t, handlePause rooms sid roomId t,
        handleSeek rooms sid roomId t],
      ∀ em ∈ result.2,
        ¬ receives result.1 em sid ∧
        ∀ m ∈ room.users.map Prod.fst, m ≠ sid → receives result.1 em m) ∧
    (∀ em ∈ (handleChangeVideo rooms sid roomId url).2,
      ∀ m ∈ room.users.map Prod.fst,
        receives (handleChangeVideo rooms sid roomId url).1 em m) := by
  have hplay : handlePlay rooms sid roomId t =
      (mapSet rooms roomId { room with isPlaying := true, currentTime := t },
       [⟨.toRoomExcept roomId sid, "play", .timeOnly t⟩]) := by
    simp [handlePlay, h]
  have hpause : handlePause rooms sid roomId t =
      (mapSet rooms roomId { room with isPlaying := false, currentTime := t },
       [⟨.toRoomExcept roomId sid, "pause", .timeOnly t⟩]) := by
    simp [handlePause, h]
  have hseek : handleSeek rooms sid roomId t =
      (mapSet rooms roomId { room with currentTime := t },
       [⟨.toRoomExcept roomId sid, "seek", .timeOnly t⟩]) := by
    simp [handleSeek, h]
  have hcv : handleChangeVideo rooms sid roomId url =
      (mapSet rooms roomId
        { room with videoUrl := url, isPlaying := false, currentTime := 0 },
       [⟨.toRoom roomId, "video-changed", .urlOnly url⟩]) := by
    simp [handleChangeVideo, h]
  constructor
  · intro result hres em hem
    have hcases : result = handlePlay rooms sid roomId t ∨
        result = handlePause rooms sid roomId t ∨
        result = handleSeek rooms sid roomId t := by
      simpa using hres
    have hone : ∃ room' : Room, room'.users = room.users ∧
        result = (mapSet rooms roomId room',
          [⟨.toRoomExcept roomId sid, em.event, em.payload⟩]) ∧
        em = ⟨.toRoomExcept roomId sid, em.event, em.payload⟩ := by
      rcases hcases with rfl | rfl | rfl
      · rw [hplay] at hem ⊢
        rw [List.mem_singleton] at hem
        subst hem
        exact ⟨{ room with isPlaying := true, currentTime := t }, rfl, rfl, rfl⟩
      · rw [hpause] at hem ⊢
        rw [List.mem_singleton] at hem
        subst hem
        exact ⟨{ room with isPlaying := false, currentTime := t }, rfl, rfl, rfl⟩
      · rw [hseek] at hem ⊢
        rw [List.mem_singleton] at hem
        subst hem
        exact ⟨{ room with currentTime := t }, rfl, rfl, rfl⟩
    obtain ⟨room', husers, hres', hem'⟩ := hone
    rw [hres', hem']
    have hmembers : memberIds (mapSet rooms roomId room') roomId =
        room.users.map Prod.fst := by
      rw [memberIds_mapSet_self, husers]
    constructor
    · rw [receives_toRoomExcept_iff]
      intro hc
      exact hc.2 rfl
    · intro m hm hne
      rw [receives_toRoomExcept_iff, hmembers]
      exact ⟨hm, hne⟩
  · intro em hem m hm
    rw [hcv] at hem
    rw [List.mem_singleton] at hem
    subst hem
    rw [hcv, receives_toRoom_iff, memberIds_mapSet_self]
    exact hm

/-- Witness for `playback_multicast_excludes_sender` on a concrete two-user
room, sender connection 1. -/
theorem playback_multicast_excludes_sender_witness :
    (∀ result ∈ [handlePlay
        [(10, ⟨10, "r", "v", false, 0,
          [(1, ⟨100, "alice", true, 1⟩), (2, ⟨101, "bob", false, 2⟩)], 0⟩)] 1 10 3,
      handlePause
        [(10, ⟨10, "r", "v", false, 0,
          [(1, ⟨100, "alice", true, 1⟩), (2, ⟨101, "bob", false, 2⟩)], 0⟩)] 1 10 3,
      handleSeek
        [(10, ⟨10, "r", "v", false, 0,
          [(1, ⟨100, "alice", true, 1⟩), (2, ⟨101, "bob", false, 2⟩)], 0⟩)] 1 10 3],
      ∀ em ∈ result.2,
        ¬ receives result.1 em 1 ∧
        ∀ m ∈ ((⟨10, "r", "v", false, 0,
            [(1, ⟨100, "alice", true, 1⟩), (2, ⟨101, "bob", false, 2⟩)], 0⟩ : Room)).users.map
              Prod.fst,
          m ≠ 1 → receives result.1 em m) ∧
    (∀ em ∈ (handleChangeVideo
        [(10, ⟨10, "r", "v", false, 0,
          [(1, ⟨100, "alice", true, 1⟩), (2, ⟨101, "bob", false, 2⟩)], 0⟩)] 1 10 "w").2,
      ∀ m ∈ ((⟨10, "r", "v", false, 0,
          [(1, ⟨100, "alice", true, 1⟩), (2, ⟨101, "bob", false, 2⟩)], 0⟩ : Room)).users.map
            Prod.fst,
        receives (handleChangeVideo
          [(10, ⟨10, "r", "v", false, 0,
            [(1, ⟨100, "alice", true, 1⟩), (2, ⟨101, "bob", false, 2⟩)], 0⟩)] 1 10 "w").1
          em m) :=
  playback_multicast_excludes_sender
    [(10, ⟨10, "r", "v", false, 0,
      [(1, ⟨100, "alice", true, 1⟩), (2, ⟨101, "bob", false, 2⟩)], 0⟩)] 1 10 3 "w"
    ⟨10, "r", "v", false, 0,
      [(1, ⟨100, "alice", true, 1⟩), (2, ⟨101, "bob", false, 2⟩)], 0⟩ rfl

/-- **C2.** `playAll()` with zero registered surfaces fails before any play
is dispatched (every path `alert`s and returns, the `NotReady` surface of
the client); with at least one registered (non-null, hence non-destroyed)
surface but none marked `Ready`, it does not fail: it dispatches to every
registered surface, and the reported `playedCount` is a partial count
bounded by the number attempted. -/
theorem playAll_empty_fails_unready_falls_back (st : AggregatorState) :
    (registeredPlayers st = [] → (playAll st).isFail = true) ∧
    (st.ytReady = true → st.videos ≠ [] → st.readyPlayers = [] →
      registeredPlayers st ≠ [] →
      playAll st = .dispatch (registeredPlayers st) ∧
      playedCount (registeredPlayers st) ≤ (registeredPlayers st).length) := by
  constructor
  · intro h
    have h1 := playersFromReady_nil h
    have h2 : functionalPlayers st = [] := by
      simp [functionalPlayers, h]
    by_cases hyt : st.ytReady
    · by_cases hv : st.videos = []
      · simp [playAll, hyt, hv, PlayAllOutcome.isFail]
      · by_cases hrp : st.readyPlayers.length = 0 ∧ st.players.length = 0
        · simp [playAll, hyt, hv, hrp, PlayAllOutcome.isFail]
        · simp [playAll, hyt, hv, hrp, h, h1, h2, PlayAllOutcome.isFail]
          split_ifs <;> rfl
    · simp [playAll, hyt, PlayAllOutcome.isFail]
  · intro hyt hv hrp hreg
    have hpl : st.players ≠ [] := by
      intro he
      apply hreg
      simp [registeredPlayers, he]
    have hnr : ¬ 0 < st.readyPlayers.length := by
      rw [hrp]
      simp
    refine ⟨?_, List.length_filter_le _ _⟩
    simp [playAll, hyt, hv, hrp, hpl, hnr, hreg]

/-- Witness for `playAll_empty_fails_unready_falls_back`: two registered
surfaces, neither marked ready (one buffering — a state `playedCount` does
not credit — one paused). -/
theorem playAll_empty_fails_unready_falls_back_witness :
    playAll ⟨true, ["a", "b"], [],
        [("a", some ⟨true, 3⟩), ("b", some ⟨true, 2⟩)]⟩ =
      .dispatch (registeredPlayers ⟨true, ["a", "b"], [],
        [("a", some ⟨true, 3⟩), ("b", some ⟨true, 2⟩)]⟩) ∧
    playedCount (registeredPlayers ⟨true, ["a", "b"], [],
        [("a", some ⟨true, 3⟩), ("b", some ⟨true, 2⟩)]⟩) ≤
      (registeredPlayers ⟨true, ["a", "b"], [],
        [("a", some ⟨true, 3⟩), ("b", some ⟨true, 2⟩)]⟩).length :=
  (playAll_empty_fails_unready_falls_back
    ⟨true, ["a", "b"], [], [("a", some ⟨true, 3⟩), ("b", some ⟨true, 2⟩)]⟩).2
    rfl (by decide) rfl (by decide)

/-- **C4 counterexample.** The one-host invariant is not preserved on every
wire-reachable registry state: connection 1 creates a room (becoming host)
and then sends `join-room` for the same room; since the room is non-empty,
the re-join overwrites connection 1's entry with `isHost=false`, leaving a
non-empty room with zero hosts. -/
theorem host_invariant_fails_on_rejoin :
    ReachableJS (stepRegistry (stepRegistry []
        (.create 1 "r" "alice" "v" 10 100 0)) (.join 1 10 "alice" 101)) ∧
    ∃ p ∈ stepRegistry (stepRegistry []
        (.create 1 "r" "alice" "v" 10 100 0)) (.join 1 10 "alice" 101),
      p.2.users ≠ [] ∧ countHosts p.2.users ≠ 1 := by
  refine ⟨.step _ (.step _ .init), ?_⟩
  refine ⟨(10, ⟨10, "r", "v", false, 0, [(1, ⟨101, "alice", false, 1⟩)], 0⟩), ?_, ?_, ?_⟩
  · decide
  · decide
  · decide

/-- **C4 (amended).** In every registry state reachable without a connection
re-joining a room it is already in, each room (all of which are non-empty)
has exactly one participant with `isHost=true`; and when the host
disconnects while other participants remain, the room survives with its
users replaced by `promoteFirst` of the deletion — i.e. the promoted host
is the earliest-joined (first-listed, JS `Map` insertion order) remaining
participant, the others keep their flags, and the room again has exactly
one host. -/
theorem host_unique_and_promotion_earliest (rooms : Rooms)
    (h : ReachableNR rooms) :
    (∀ p ∈ rooms, p.2.users ≠ [] ∧ countHosts p.2.users = 1) ∧
    (∀ sid rid room u,
      rooms.find? (fun p => mapHas p.2.users sid) = some (rid, room) →
      mapGet room.users sid = some u →
      u.isHost = true →
      mapDelete room.users sid ≠ [] →
      mapGet (handleDisconnect rooms sid).1 rid =
        some { room with users := promoteFirst (mapDelete room.users sid) } ∧
      (promoteFirst (mapDelete room.users sid)).head? =
        (mapDelete room.users sid).head?.map
          (fun q => (q.1, { q.2 with isHost := true })) ∧
      (promoteFirst (mapDelete room.users sid)).tail =
        (mapDelete room.users sid).tail ∧
      countHosts (promoteFirst (mapDelete room.users sid)) = 1) := by
  obtain ⟨hnd, hwf⟩ := registryInv_reachableNR h
  constructor
  · intro p hp
    exact ⟨(hwf p hp).2.1, (hwf p hp).2.2⟩
  · intro sid rid room u hfind hget hhost hrem
    have hheadtail : (promoteFirst (mapDelete room.users sid)).head? =
        (mapDelete room.users sid).head?.map
          (fun q => (q.1, { q.2 with isHost := true })) ∧
        (promoteFirst (mapDelete room.users sid)).tail =
          (mapDelete room.users sid).tail := by
      cases hd : mapDelete room.users sid with
      | nil => exact absurd hd hrem
      | cons q tl =>
        obtain ⟨k, w⟩ := q
        simp [promoteFirst]
    have hroomWF : RoomWF room := hwf (rid, room) (List.mem_of_find?_eq_some hfind)
    obtain ⟨hndm, _, hone⟩ := hroomWF
    have hzero : countHosts (mapDelete room.users sid) = 0 := by
      have hc := countHosts_mapDelete hndm hget
      rw [hone, hhost] at hc
      simpa using hc
    exact ⟨disconnectLoop_hit hnd hfind hget hhost hrem, hheadtail.1, hheadtail.2,
      countHosts_promoteFirst hrem hzero⟩

/-- Witness for `host_unique_and_promotion_earliest`: the registry reached by
`create-room` from connection 1 ("alice", room 10) followed by `join-room`
from connection 2 ("bob"); the invariant part is checked on the room, and
the promotion part on connection 1 (the host) disconnecting, which promotes
bob — the earliest-joined remaining participant. -/
theorem host_unique_and_promotion_earliest_witness :
    ((10, (⟨10, "r", "v", false, 0,
        [(1, ⟨100, "alice", true, 1⟩), (2, ⟨101, "bob", false, 2⟩)], 0⟩ : Room)) ∈
      ([(10, ⟨10, "r", "v", false, 0,
        [(1, ⟨100, "alice", true, 1⟩), (2, ⟨101, "bob", false, 2⟩)], 0⟩)] : Rooms) →
      countHosts [(1, (⟨100, "alice", true, 1⟩ : User)), (2, ⟨101, "bob", false, 2⟩)] = 1) ∧
    mapGet (handleDisconnect
        [(10, ⟨10, "r", "v", false, 0,
          [(1, ⟨100, "alice", true, 1⟩), (2, ⟨101, "bob", false, 2⟩)], 0⟩)] 1).1 10 =
      some { (⟨10, "r", "v", false, 0,
          [(1, ⟨100, "alice", true, 1⟩), (2, ⟨101, "bob", false, 2⟩)], 0⟩ : Room) with
        users := promoteFirst (mapDelete
          [(1, (⟨100, "alice", true, 1⟩ : User)), (2, ⟨101, "bob", false, 2⟩)] 1) } := by
  have hreach : ReachableNR
      ([(10, ⟨10, "r", "v", false, 0,
        [(1, ⟨100, "alice", true, 1⟩), (2, ⟨101, "bob", false, 2⟩)], 0⟩)] : Rooms) := by
    have h0 : ReachableNR ([] : Rooms) := .init
    have h1 : ReachableNR (stepRegistry [] (.create 1 "r" "alice" "v" 10 100 0)) :=
      .step _ h0 trivial
    have h2 : ReachableNR (stepRegistry (stepRegistry []
        (.create 1 "r" "alice" "v" 10 100 0)) (.join 2 10 "bob" 101)) := by
      refine .step _ h1 ?_
      intro room hm
      simp [stepRegistry, handleCreateRoom, mapSet, mapGet] at hm
      subst hm
      decide
    exact h2
  have h := host_unique_and_promotion_earliest _ hreach
  refine ⟨fun hp => (h.1 _ hp).2, ?_⟩
  exact (h.2 1 10
    ⟨10, "r", "v", false, 0,
      [(1, ⟨100, "alice", true, 1⟩), (2, ⟨101, "bob", false, 2⟩)], 0⟩
    ⟨100, "alice", true, 1⟩ (by decide) rfl rfl (by decide)).1

end ViewSync
